import Mathlib

/-!
Verification of the Cairo/Starknet value-encoding layer of `starknet.py`
against its natural-language specification.

The Python source is shallowly embedded:
* Python `int` values flowing through the felt serializer are `Int`
  (negative inputs matter for range validation);
* Python `str` values are `List Char`;
* dynamically typed inputs (`Any`) are the closed sum `PyValue`;
* raised exceptions become `Except` errors;
* the generator `serialize_with_context` becomes a function returning the
  list of felts it yields;
* the mutable reader cursor becomes explicit state passing.

Pieces of the repository imported by the sources but not themselves part of
the source set (the serialization `Context`/reader, `encode_shortstring`,
`is_in_felt_range`, the `ADDR_BOUND` constant, `pedersen_hash`,
`_starknet_keccak`) are modelled from the specification; each such
definition carries a doc comment saying so.
-/

namespace StarknetPy

/-- External constant (imported in the source from
`starkware.crypto.signature.signature`): the Stark field prime
`P = 2^251 + 17 * 2^192 + 1`. -/
def FIELD_PRIME : Nat := 2 ^ 251 + 17 * 2 ^ 192 + 1

/-- Modelled from the spec: the address-bound constant
(`starknet_py.constants.ADDR_BOUND`, not in the source set) is a fixed,
globally known value; it is `2^251 - 256`. -/
def ADDR_BOUND : Nat := 2 ^ 251 - 256

/-- Modelled from the spec: `starknet_py.cairo.felt.is_in_felt_range`
(module not in the source set). A felt must satisfy `0 <= value < P`. -/
def is_in_felt_range (value : Int) : Bool :=
  decide (0 ≤ value ∧ value < (FIELD_PRIME : Int))

/-- Error taxonomy of the serialization subsystem.  Each error raised
through a `Context` carries the dotted path to the offending field
(spec section 7); the path payload is that list of path segments. -/
inductive SerErr where
  | invalidType (path : List String) (expected : String)
  | invalidValue (path : List String)
  | endOfBuffer (path : List String)
  | valueError
  deriving Repr, DecidableEq

/-- `true` exactly when the result is a raised `InvalidValueError`. -/
def errIsInvalidValue {α : Type} : Except SerErr α → Bool
  | .error (.invalidValue _) => true
  | _ => false

/-- Modelled from the spec: the serialization `Context`
(`starknet_py.cairo.serialization._context`, not in the source set)
carries the current path used only for error messages. -/
structure SerializationContext where
  path : List String
  deriving Repr, DecidableEq

/-- Modelled from the spec: the reader cursor wraps the flat input felt
sequence plus a position index. -/
structure FeltReader where
  data : List Int
  pos : Nat
  deriving Repr, DecidableEq

/-- Modelled from the spec: bounds-checked sequential `read` on the
cursor; reading past the end raises `EndOfBufferError`. Returns the `n`
felts read together with the advanced cursor. -/
def FeltReader.read (r : FeltReader) (n : Nat) (path : List String) :
    Except SerErr (List Int × FeltReader) :=
  if r.pos + n ≤ r.data.length then
    .ok ((r.data.drop r.pos).take n, ⟨r.data, r.pos + n⟩)
  else
    .error (.endOfBuffer path)

/-- Modelled from the spec: the deserialization `Context` holds the
reader cursor and the current path. -/
structure DeserializationContext where
  reader : FeltReader
  path : List String
  deriving Repr, DecidableEq

/-- A dynamically-typed Python value reaching
`FeltSerializer.serialize_with_context` (typed `int` in the signature but
dispatched on `isinstance` at runtime): an `int`, a `str`, or anything
else. -/
inductive PyValue where
  | int (v : Int)
  | str (s : List Char)
  | other
  deriving Repr, DecidableEq

/-- Modelled from the spec: `starknet_py.cairo.felt.encode_shortstring`
(module not in the source set) packs ASCII text of at most 31 characters
into a single felt, big-endian by bytes; longer or non-ASCII input raises
a `ValueError`-style error. -/
def encode_shortstring (s : List Char) : Except SerErr Nat :=
  if s.length ≤ 31 ∧ s.all (fun c => c.toNat < 128) then
    .ok (s.foldl (fun acc c => acc * 256 + c.toNat) 0)
  else
    .error .valueError

/-- The felt serializer class has no instance attributes; its embedding is
a fieldless structure threaded through the methods to witness that no
invocation mutates it. -/
structure FeltSerializer where
  deriving Repr, DecidableEq

/-- Embedding of `FeltSerializer.serialize_with_context`
(felt_serializer.py lines 28-43): a `str` input is transcoded by
`encode_shortstring` and yielded at once (the accompanying
`DeprecationWarning` is the separate observable
`serializeEmitsDeprecation`); otherwise the `isinstance(value, int)` check
runs (`ensure_valid_type`), then `_ensure_felt` validates the field range,
then the single felt is yielded. -/
def feltSerializeCore (context : SerializationContext) (value : PyValue) :
    Except SerErr (List Int) :=
  match value with
  | .str s =>
      match encode_shortstring s with
      | .ok n => .ok [(n : Int)]
      | .error e => .error e
  | .int v =>
      if is_in_felt_range v then .ok [v]
      else .error (.invalidValue context.path)
  | .other => .error (.invalidType context.path "int")

/-- The `warnings.warn(..., DeprecationWarning)` side effect of
`serialize_with_context`: emitted exactly on the `str` branch, before
transcoding. -/
def serializeEmitsDeprecation : PyValue → Bool
  | .str _ => true
  | _ => false

/-- `FeltSerializer.serialize_with_context` with the receiver threaded
explicitly: the method reads and writes no attribute of `self`, so the
returned serializer is the input one. -/
def FeltSerializer.serialize_with_context (self : FeltSerializer)
    (context : SerializationContext) (value : PyValue) :
    FeltSerializer × Except SerErr (List Int) :=
  (self, feltSerializeCore context value)

/-- Embedding of `FeltSerializer.deserialize_with_context`
(felt_serializer.py lines 23-26): `[val] = context.reader.read(1)`, then
`_ensure_felt`, then return `val`; the updated cursor is returned
explicitly.  The `read` of one felt always yields a one-element list, so
the remaining match arm is unreachable. -/
def feltDeserializeCore (context : DeserializationContext) :
    Except SerErr (Int × DeserializationContext) :=
  match context.reader.read 1 context.path with
  | .error e => .error e
  | .ok (vals, r2) =>
      match vals with
      | [val] =>
          if is_in_felt_range val then .ok (val, ⟨r2, context.path⟩)
          else .error (.invalidValue context.path)
      | _ => .error (.invalidValue context.path)

/-- `FeltSerializer.deserialize_with_context` with the receiver threaded
explicitly (the method touches no attribute of `self`). -/
def FeltSerializer.deserialize_with_context (self : FeltSerializer)
    (context : DeserializationContext) :
    FeltSerializer × Except SerErr (Int × DeserializationContext) :=
  (self, feltDeserializeCore context)

/-- The character Python uses for hex digit `d` (`0`-`9` then lowercase
`a`-`f`). -/
def hexDigitChar (d : Nat) : Char :=
  if d < 10 then Char.ofNat (48 + d) else Char.ofNat (87 + d)

/-- The digit string (after the `0x` prefix) of Python `hex(v)` for a
nonnegative `v`: `"0"` for zero, otherwise the base-16 digits most
significant first, lowercase, no leading zeros. -/
def pyHexDigits (v : Nat) : List Char :=
  if v = 0 then ['0'] else (Nat.digits 16 v).reverse.map hexDigitChar

/-- Python `hex(v)` for nonnegative `v`: `0x` followed by the digits. -/
def pyHex (v : Nat) : List Char :=
  '0' :: 'x' :: pyHexDigits v

/-- Recognizer for the hex digits Python `int(_, 16)` accepts
(`0-9`, `a-f`, `A-F`). -/
def isHexDigitChar (c : Char) : Bool :=
  ('0' ≤ c && c ≤ '9') || ('a' ≤ c && c ≤ 'f') || ('A' ≤ c && c ≤ 'F')

/-- Numeric value of a hex digit character. -/
def hexCharVal (c : Char) : Nat :=
  if c ≤ '9' then c.toNat - 48 else if c ≤ 'F' then c.toNat - 55 else c.toNat - 87

/-- Parses a nonempty all-hex-digit string as a base-16 number, most
significant digit first; `none` otherwise. -/
def parseHexDigits (s : List Char) : Option Nat :=
  if s ≠ [] ∧ s.all isHexDigitChar then
    some (s.foldl (fun acc c => acc * 16 + hexCharVal c) 0)
  else
    none

/-- Python `int(s, 16)` on the strings the schema fields feed it: an
optional `0x` prefix followed by at least one hex digit; anything else
raises `ValueError` (`none` here).  Python extras irrelevant to these
claims (sign, underscores, surrounding whitespace) are not modelled. -/
def pyIntBase16 (s : List Char) : Option Nat :=
  if s.take 2 = ['0', 'x'] then parseHexDigits (s.drop 2) else parseHexDigits s

/-- Error raised by marshmallow schema fields. -/
inductive MarshErr where
  | validationError
  | valueError
  deriving Repr, DecidableEq

/-- Embedding of `Felt._deserialize` (net/schemas/common.py lines 23-36):
rejects any value that is not a `0x`-prefixed string, then returns
`int(value, 16)`, converting a parse failure to `ValidationError`.
Note: no field-range check is performed here. -/
def feltFieldDeserialize (value : PyValue) : Except MarshErr Int :=
  match value with
  | .str s =>
      if s.take 2 = ['0', 'x'] then
        match pyIntBase16 s with
        | some n => .ok (n : Int)
        | none => .error .validationError
      else .error .validationError
  | _ => .error .validationError

/-- Python `str.lstrip(chars)`: removes leading characters belonging to
the given character set (not the literal leading substring). -/
def pyLstrip (chars : List Char) (s : List Char) : List Char :=
  s.dropWhile (fun c => chars.contains c)

/-- Embedding of `NonPrefixedHex._serialize` (net/schemas/common.py
lines 51-52): `hex(value).lstrip("0x")`. -/
def nonPrefixedHexSerialize (value : Nat) : List Char :=
  pyLstrip ['0', 'x'] (pyHex value)

/-- Embedding of `NonPrefixedHex._deserialize` (net/schemas/common.py
lines 54-61): `int(value, 16)`, with a parse failure propagating as a
raw `ValueError` (there is no try/except here). -/
def nonPrefixedHexDeserialize (value : List Char) : Except MarshErr Nat :=
  match pyIntBase16 value with
  | some n => .ok n
  | none => .error .valueError

/-- Embedding of `Call` (net/client_models.py lines 15-18). -/
structure Call where
  to_addr : Int
  selector : Int
  calldata : List Int
  deriving Repr, DecidableEq

/-- The call-descriptor dict built by `parse_call` inside `merge_calls`
(net/account/account_client.py lines 611-616).  The dict key `"to"` is a
reserved token in Lean, so the field is named `to_addr`. -/
structure CallDescriptor where
  to_addr : Int
  selector : Int
  data_offset : Nat
  data_len : Nat
  deriving Repr, DecidableEq

/-- Embedding of the inner `parse_call` (account_client.py lines
608-620): builds the descriptor for one call and returns the grown
running calldata length and concatenated calldata. -/
def parse_call (call : Call) (current_data_len : Nat)
    (entire_calldata : List Int) : CallDescriptor × Nat × List Int :=
  (⟨call.to_addr, call.selector, current_data_len, call.calldata.length⟩,
   current_data_len + call.calldata.length,
   entire_calldata ++ call.calldata)

/-- The `for call in calls` loop of `merge_calls` (account_client.py
lines 625-629), with the loop state passed explicitly. -/
def mergeCallsLoop (calls : List Call) (current_data_len : Nat)
    (entire_calldata : List Int) : List CallDescriptor × List Int :=
  match calls with
  | [] => ([], entire_calldata)
  | call :: rest =>
      let step := parse_call call current_data_len entire_calldata
      let out := mergeCallsLoop rest step.2.1 step.2.2
      (step.1 :: out.1, out.2)

/-- Embedding of `merge_calls` (account_client.py lines 607-631): returns
the descriptor list and the concatenated calldata (the Python
heterogeneous two-element list becomes a pair). -/
def merge_calls (calls : List Call) : List CallDescriptor × List Int :=
  mergeCallsLoop calls 0 []

/-- Embedding of `get_storage_var_address` (hash/storage.py lines 7-12):
`reduce(pedersen_hash, args, _starknet_keccak(var_name)) % ADDR_BOUND`.
`pedersen_hash` and `_starknet_keccak` live in `hash/utils.py`, which is
not in the source set, so they are taken as function parameters (the
keccak parameter absorbs the ASCII encoding of the name). -/
def get_storage_var_address (pedersen_hash : Nat → Nat → Nat)
    (starknet_keccak : List Char → Nat)
    (var_name : List Char) (args : List Nat) : Nat :=
  (args.foldl pedersen_hash (starknet_keccak var_name)) % ADDR_BOUND

/-- The pure recombination step of `AccountClient.get_balance`
(account_client.py line 243): the `balanceOf` call returns the pair
`low, high` and the balance is `(high << 128) + low`. -/
def getBalanceRecombine (low high : Nat) : Nat :=
  (high <<< 128) + low

/-- The spec's limb-recombination formula, written from its words
(section 4.7): `sum(limb_i << (i * felt_bit_width))` over the low-to-high
limb list. -/
def specLimbRecombination (limbs : List Nat) (width : Nat) : Nat :=
  (limbs.enum.map (fun p => p.2 <<< (p.1 * width))).sum

/-! ## Helper lemmas -/

theorem FeltReader.read_one (r : FeltReader) (p : List String)
    (h : r.pos < r.data.length) :
    r.read 1 p = .ok ([r.data[r.pos]], ⟨r.data, r.pos + 1⟩) := by
  have hle : r.pos + 1 ≤ r.data.length := h
  have ht : (r.data.drop r.pos).take 1 = [r.data[r.pos]] := by
    rw [List.drop_eq_getElem_cons h]
    rfl
  simp only [FeltReader.read, if_pos hle, ht]

theorem FeltReader.read_one_exhausted (r : FeltReader) (p : List String)
    (h : r.data.length ≤ r.pos) :
    r.read 1 p = .error (.endOfBuffer p) := by
  simp only [FeltReader.read]
  rw [if_neg (by omega)]

theorem feltDeserializeCore_of_lt (ctx : DeserializationContext)
    (h : ctx.reader.pos < ctx.reader.data.length) :
    feltDeserializeCore ctx =
      if is_in_felt_range (ctx.reader.data[ctx.reader.pos]) then
        .ok (ctx.reader.data[ctx.reader.pos],
             ⟨⟨ctx.reader.data, ctx.reader.pos + 1⟩, ctx.path⟩)
      else .error (.invalidValue ctx.path) := by
  simp only [feltDeserializeCore, ctx.reader.read_one ctx.path h]

theorem feltDeserializeCore_exhausted (ctx : DeserializationContext)
    (h : ctx.reader.data.length ≤ ctx.reader.pos) :
    feltDeserializeCore ctx = .error (.endOfBuffer ctx.path) := by
  simp only [feltDeserializeCore, ctx.reader.read_one_exhausted ctx.path h]

theorem is_in_felt_range_iff (v : Int) :
    is_in_felt_range v = true ↔ 0 ≤ v ∧ v < (FIELD_PRIME : Int) := by
  simp [is_in_felt_range]

theorem feltSerializeCore_int_cases (c : SerializationContext) (v : Int) :
    feltSerializeCore c (.int v) =
      if is_in_felt_range v then .ok [v] else .error (.invalidValue c.path) :=
  rfl

/-! ## Claims about the felt serializer -/

/-- C1: for every integer `v`, `serialize_with_context` raises
`InvalidValueError` exactly when `v < 0` or `v >= FIELD_PRIME`;
`deserialize_with_context` raises `InvalidValueError` exactly when the
felt read from the cursor is outside `[0, FIELD_PRIME)`; serializing
`FIELD_PRIME` itself fails with `InvalidValueError` while serializing
`FIELD_PRIME - 1` succeeds. -/
theorem claim_C1 (c : SerializationContext) (v : Int)
    (dctx : DeserializationContext)
    (h : dctx.reader.pos < dctx.reader.data.length) :
    (feltSerializeCore c (.int v) = .error (.invalidValue c.path) ↔
       v < 0 ∨ (FIELD_PRIME : Int) ≤ v) ∧
    (feltDeserializeCore dctx = .error (.invalidValue dctx.path) ↔
       dctx.reader.data[dctx.reader.pos] < 0 ∨
         (FIELD_PRIME : Int) ≤ dctx.reader.data[dctx.reader.pos]) ∧
    feltSerializeCore c (.int (FIELD_PRIME : Int)) =
      .error (.invalidValue c.path) ∧
    feltSerializeCore c (.int ((FIELD_PRIME : Int) - 1)) =
      .ok [(FIELD_PRIME : Int) - 1] := by
  refine ⟨?_, ?_, ?_, ?_⟩
  · rw [feltSerializeCore_int_cases]
    split_ifs with hfr
    · rw [is_in_felt_range_iff] at hfr
      simp only [iff_iff_implies_and_implies]
      constructor
      · intro hab
        exact absurd hab (by simp)
      · intro hor
        omega
    · rw [is_in_felt_range_iff] at hfr
      simp only [true_iff, eq_self_iff_true]
      omega
  · rw [feltDeserializeCore_of_lt dctx h]
    split_ifs with hfr
    · rw [is_in_felt_range_iff] at hfr
      simp only [iff_iff_implies_and_implies]
      constructor
      · intro hab
        exact absurd hab (by simp)
      · intro hor
        omega
    · rw [is_in_felt_range_iff] at hfr
      simp only [true_iff, eq_self_iff_true]
      omega
  · rw [feltSerializeCore_int_cases]
    rw [if_neg (by rw [is_in_felt_range_iff]; omega)]
  · rw [feltSerializeCore_int_cases]
    rw [if_pos (by rw [is_in_felt_range_iff]; constructor <;> [simp [FIELD_PRIME]; omega])]

/-- Witness for C1 at concrete inputs. -/
theorem claim_C1_witness :
    (feltSerializeCore ⟨[]⟩ (.int (-1)) = .error (.invalidValue []) ↔
       (-1 : Int) < 0 ∨ (FIELD_PRIME : Int) ≤ -1) ∧
    (feltDeserializeCore ⟨⟨[3], 0⟩, []⟩ = .error (.invalidValue []) ↔
       ([3] : List Int)[0] < 0 ∨ (FIELD_PRIME : Int) ≤ ([3] : List Int)[0]) ∧
    feltSerializeCore ⟨[]⟩ (.int (FIELD_PRIME : Int)) =
      .error (.invalidValue []) ∧
    feltSerializeCore ⟨[]⟩ (.int ((FIELD_PRIME : Int) - 1)) =
      .ok [(FIELD_PRIME : Int) - 1] :=
  claim_C1 ⟨[]⟩ (-1) ⟨⟨[3], 0⟩, []⟩ (by decide)

/-- C2: for every `v` with `0 <= v < FIELD_PRIME`, serialization emits
exactly the one felt `[v]`, and deserializing that one-felt output from a
fresh cursor returns `v` (consuming it). -/
theorem claim_C2 (c : SerializationContext) (p : List String) (v : Int)
    (h0 : 0 ≤ v) (h1 : v < (FIELD_PRIME : Int)) :
    feltSerializeCore c (.int v) = .ok [v] ∧
    feltDeserializeCore ⟨⟨[v], 0⟩, p⟩ = .ok (v, ⟨⟨[v], 1⟩, p⟩) := by
  have hr : is_in_felt_range v = true := (is_in_felt_range_iff v).mpr ⟨h0, h1⟩
  constructor
  · rw [feltSerializeCore_int_cases, if_pos hr]
  · rw [feltDeserializeCore_of_lt ⟨⟨[v], 0⟩, p⟩ (by simp)]
    have : (([v] : List Int))[(0 : Nat)] = v := rfl
    rw [this, if_pos hr]

/-- Witness for C2 at `v = 7`. -/
theorem claim_C2_witness :
    feltSerializeCore ⟨[]⟩ (.int 7) = .ok [7] ∧
    feltDeserializeCore ⟨⟨[7], 0⟩, []⟩ = .ok (7, ⟨⟨[7], 1⟩, []⟩) :=
  claim_C2 ⟨[]⟩ [] 7 (by decide) (by decide)

/-- C5: `deserialize_with_context` raises `EndOfBufferError` on an
exhausted cursor; otherwise it consumes exactly one felt (the cursor
position advances by exactly one over unchanged data), re-validates the
read felt field range, and returns it. -/
theorem claim_C5 (ctx : DeserializationContext) :
    (ctx.reader.data.length ≤ ctx.reader.pos →
       feltDeserializeCore ctx = .error (.endOfBuffer ctx.path)) ∧
    (∀ h : ctx.reader.pos < ctx.reader.data.length,
       (is_in_felt_range (ctx.reader.data[ctx.reader.pos]) = true →
          feltDeserializeCore ctx =
            .ok (ctx.reader.data[ctx.reader.pos],
                 ⟨⟨ctx.reader.data, ctx.reader.pos + 1⟩, ctx.path⟩)) ∧
       (is_in_felt_range (ctx.reader.data[ctx.reader.pos]) = false →
          feltDeserializeCore ctx = .error (.invalidValue ctx.path))) := by
  refine ⟨fun h => feltDeserializeCore_exhausted ctx h, fun h => ⟨?_, ?_⟩⟩
  · intro hr
    rw [feltDeserializeCore_of_lt ctx h, if_pos hr]
  · intro hr
    rw [feltDeserializeCore_of_lt ctx h, if_neg (by rw [hr]; simp)]

/-- Witness for C5: a one-felt cursor is consumed to position 1; an
exhausted cursor raises `EndOfBufferError`. -/
theorem claim_C5_witness :
    feltDeserializeCore ⟨⟨[5], 0⟩, []⟩ = .ok (5, ⟨⟨[5], 1⟩, []⟩) ∧
    feltDeserializeCore ⟨⟨[], 0⟩, []⟩ = .error (.endOfBuffer []) :=
  ⟨((claim_C5 ⟨⟨[5], 0⟩, []⟩).2 (by decide)).1 rfl,
   (claim_C5 ⟨⟨[], 0⟩, []⟩).1 (by decide)⟩

/-- C7: the felt serializer is stateless and deterministic — the method
returns the receiver unchanged, and two invocations with the same value
but independent fresh contexts produce identical felt output. -/
theorem claim_C7 (self : FeltSerializer) (c1 c2 : SerializationContext)
    (v : PyValue) :
    (self.serialize_with_context c1 v).1 = self ∧
    ((self.serialize_with_context c1 v).2).toOption =
      ((self.serialize_with_context c2 v).2).toOption := by
  refine ⟨rfl, ?_⟩
  cases v with
  | int n =>
      by_cases h : is_in_felt_range n <;>
        simp [FeltSerializer.serialize_with_context, feltSerializeCore, h,
          Except.toOption]
  | str s => rfl
  | other => rfl

/-! ## Short strings -/

theorem foldl_shortstring_bound (l : List Char) (acc : Nat)
    (hc : ∀ c ∈ l, c.toNat < 256) :
    l.foldl (fun a c => a * 256 + c.toNat) acc < (acc + 1) * 256 ^ l.length := by
  induction l generalizing acc with
  | nil => simp
  | cons c t ih =>
      have hct : c.toNat < 256 := hc c (List.mem_cons_self c t)
      have ht : ∀ x ∈ t, x.toNat < 256 := fun x hx => hc x (List.mem_cons_of_mem c hx)
      have h1 := ih (acc * 256 + c.toNat) ht
      calc t.foldl (fun a x => a * 256 + x.toNat) (acc * 256 + c.toNat)
          < (acc * 256 + c.toNat + 1) * 256 ^ t.length := h1
        _ ≤ ((acc + 1) * 256) * 256 ^ t.length := by
              have hstep : acc * 256 + c.toNat + 1 ≤ (acc + 1) * 256 := by omega
              exact Nat.mul_le_mul_right _ hstep
        _ = (acc + 1) * 256 ^ (t.length + 1) := by ring

theorem encode_shortstring_range (s : List Char) (n : Nat)
    (h : encode_shortstring s = .ok n) : n < FIELD_PRIME := by
  unfold encode_shortstring at h
  split_ifs at h with hcond
  · obtain ⟨hlen, hall⟩ := hcond
    have hc : ∀ c ∈ s, c.toNat < 256 := by
      intro c hmem
      have h128 := of_decide_eq_true (List.all_eq_true.mp hall c hmem)
      omega
    have hfold := foldl_shortstring_bound s 0 hc
    have hn : s.foldl (fun acc c => acc * 256 + c.toNat) 0 = n := by
      injection h
    have h31 : (256 : Nat) ^ s.length ≤ 256 ^ 31 :=
      Nat.pow_le_pow_right (by norm_num) hlen
    have hP : (256 : Nat) ^ 31 < FIELD_PRIME := by decide
    omega

/-- C3: a string input to `serialize_with_context` is transcoded to its
integer short-string encoding with a deprecation signal, and the result
is the same as serializing that integer directly — the transcoded value
passes the integer validation (it lies in `[0, FIELD_PRIME)`) and exactly
one felt is emitted. -/
theorem claim_C3 (c : SerializationContext) (s : List Char) (n : Nat)
    (h : encode_shortstring s = .ok n) :
    serializeEmitsDeprecation (.str s) = true ∧
    feltSerializeCore c (.str s) = .ok [(n : Int)] ∧
    feltSerializeCore c (.str s) = feltSerializeCore c (.int (n : Int)) ∧
    is_in_felt_range (n : Int) = true := by
  have hlt : n < FIELD_PRIME := encode_shortstring_range s n h
  have hr : is_in_felt_range (n : Int) = true := by
    rw [is_in_felt_range_iff]
    exact ⟨Int.natCast_nonneg n, by exact_mod_cast hlt⟩
  have hstr : feltSerializeCore c (.str s) = .ok [(n : Int)] := by
    simp [feltSerializeCore, h]
  refine ⟨rfl, hstr, ?_, hr⟩
  rw [hstr, feltSerializeCore_int_cases, if_pos hr]

/-- Witness for C3 on the two-character string `"ab"`. -/
theorem claim_C3_witness :
    serializeEmitsDeprecation (.str "ab".toList) = true ∧
    feltSerializeCore ⟨[]⟩ (.str "ab".toList) = .ok [((24930 : Nat) : Int)] ∧
    feltSerializeCore ⟨[]⟩ (.str "ab".toList) =
      feltSerializeCore ⟨[]⟩ (.int ((24930 : Nat) : Int)) ∧
    is_in_felt_range ((24930 : Nat) : Int) = true :=
  claim_C3 ⟨[]⟩ "ab".toList 24930 rfl

/-! ## The schema `Felt` field -/

/-- C4 (counterexample to the claim as stated): `Felt._deserialize`
accepts the hex spelling of `FIELD_PRIME` itself — an input that parses
to an integer outside `[0, FIELD_PRIME)` — returning it instead of
rejecting it. -/
theorem claim_C4_counterexample :
    feltFieldDeserialize
        (.str "0x800000000000011000000000000000000000000000000000000000000000001".toList) =
      .ok ((FIELD_PRIME : Nat) : Int) ∧
    is_in_felt_range ((FIELD_PRIME : Nat) : Int) = false := by
  constructor
  · rfl
  · rfl

/-- C4 (amended): `FeltSerializer.deserialize_with_context` rejects any
read felt outside `[0, FIELD_PRIME)` as `InvalidValueError`, but the
schema field `Felt._deserialize` enforces only the `0x`-hex-string
format: its result is always nonnegative, yet it performs no upper range
check and accepts values `>= FIELD_PRIME` such as the prime itself. -/
theorem claim_C4_amended (dctx : DeserializationContext)
    (h : dctx.reader.pos < dctx.reader.data.length)
    (s : List Char) (n : Int) :
    (is_in_felt_range (dctx.reader.data[dctx.reader.pos]) = false →
       feltDeserializeCore dctx = .error (.invalidValue dctx.path)) ∧
    (feltFieldDeserialize (.str s) = .ok n → 0 ≤ n) ∧
    feltFieldDeserialize
        (.str "0x800000000000011000000000000000000000000000000000000000000000001".toList) =
      .ok ((FIELD_PRIME : Nat) : Int) := by
  refine ⟨?_, ?_, rfl⟩
  · intro hr
    rw [feltDeserializeCore_of_lt dctx h, if_neg (by rw [hr]; simp)]
  · intro hok
    have hok2 : (if s.take 2 = ['0', 'x'] then
        match pyIntBase16 s with
        | some m => (Except.ok (m : Int) : Except MarshErr Int)
        | none => .error .validationError
      else .error .validationError) = .ok n := hok
    split_ifs at hok2
    revert hok2
    cases hcase : pyIntBase16 s with
    | none => simp
    | some m =>
        intro hok2
        have hm : (m : Int) = n := by injection hok2
        omega

/-- Witness for the amended C4 at concrete inputs. -/
theorem claim_C4_witness :
    feltDeserializeCore ⟨⟨[-1], 0⟩, []⟩ = .error (.invalidValue []) ∧
    (0 : Int) ≤ 5 ∧
    feltFieldDeserialize
        (.str "0x800000000000011000000000000000000000000000000000000000000000001".toList) =
      .ok ((FIELD_PRIME : Nat) : Int) :=
  ⟨(claim_C4_amended ⟨⟨[-1], 0⟩, []⟩ (by decide) "0x5".toList 5).1 rfl,
   (claim_C4_amended ⟨⟨[-1], 0⟩, []⟩ (by decide) "0x5".toList 5).2.1 rfl,
   (claim_C4_amended ⟨⟨[-1], 0⟩, []⟩ (by decide) "0x5".toList 5).2.2⟩

/-! ## Balance recombination -/

/-- C6: `get_balance` recombines the two 128-bit limbs returned by
`balanceOf` low-to-high as `(high << 128) + low`, which agrees with the
spec formula `sum(limb_i << (i * felt_bit_width))` over `[low, high]`. -/
theorem claim_C6 (low high : Nat) :
    getBalanceRecombine low high = (high <<< 128) + low ∧
    getBalanceRecombine low high = specLimbRecombination [low, high] 128 := by
  refine ⟨rfl, ?_⟩
  have henum : List.enum [low, high] = [(0, low), (1, high)] := rfl
  simp [getBalanceRecombine, specLimbRecombination, henum, Nat.shiftLeft_eq]
  ring

/-! ## Storage variable addresses -/

/-- C9: `get_storage_var_address` is
`reduce(pedersen_hash, args, _starknet_keccak(name)) % ADDR_BOUND`, so it
always lies in `[0, ADDR_BOUND)`; with no arguments it is
`_starknet_keccak(name) % ADDR_BOUND`. -/
theorem claim_C9 (ped : Nat → Nat → Nat) (kec : List Char → Nat)
    (name : List Char) (args : List Nat) :
    get_storage_var_address ped kec name args =
      (args.foldl ped (kec name)) % ADDR_BOUND ∧
    get_storage_var_address ped kec name args < ADDR_BOUND ∧
    get_storage_var_address ped kec name [] = kec name % ADDR_BOUND := by
  refine ⟨rfl, ?_, rfl⟩
  exact Nat.mod_lt _ (by norm_num [ADDR_BOUND])

/-! ## Merging calls -/

theorem mergeCallsLoop_snd (calls : List Call) (cur : Nat) (entire : List Int) :
    (mergeCallsLoop calls cur entire).2 =
      entire ++ (calls.map Call.calldata).flatten := by
  induction calls generalizing cur entire with
  | nil => simp [mergeCallsLoop]
  | cons call rest ih =>
      simp [mergeCallsLoop, parse_call, ih, List.append_assoc]

theorem mergeCallsLoop_fst_length (calls : List Call) (cur : Nat)
    (entire : List Int) :
    (mergeCallsLoop calls cur entire).1.length = calls.length := by
  induction calls generalizing cur entire with
  | nil => rfl
  | cons call rest ih => simp [mergeCallsLoop, parse_call, ih]

theorem mergeCallsLoop_get (calls : List Call) (cur : Nat) (entire : List Int)
    (i : Nat) (h : i < calls.length) :
    (mergeCallsLoop calls cur entire).1.get
        ⟨i, by rw [mergeCallsLoop_fst_length]; exact h⟩ =
      ⟨(calls.get ⟨i, h⟩).to_addr, (calls.get ⟨i, h⟩).selector,
       cur + ((calls.take i).map (fun cl => cl.calldata.length)).sum,
       (calls.get ⟨i, h⟩).calldata.length⟩ := by
  induction calls generalizing cur entire i with
  | nil => exact absurd h (by simp)
  | cons call rest ih =>
      cases i with
      | zero => simp [mergeCallsLoop, parse_call]
      | succ j =>
          have hj : j < rest.length := by simpa using h
          have hstep := ih (cur + call.calldata.length) (entire ++ call.calldata) j hj
          have harith :
              (cur + call.calldata.length) +
                  ((rest.take j).map (fun cl => cl.calldata.length)).sum =
                cur + (((call :: rest).take (j + 1)).map
                  (fun cl => cl.calldata.length)).sum := by
            simp only [List.take_succ_cons, List.map_cons, List.sum_cons]
            omega
          calc (mergeCallsLoop (call :: rest) cur entire).1.get
                ⟨j + 1, by rw [mergeCallsLoop_fst_length]; exact h⟩
              = (mergeCallsLoop rest (cur + call.calldata.length)
                  (entire ++ call.calldata)).1.get
                  ⟨j, by rw [mergeCallsLoop_fst_length]; exact hj⟩ := by
                simp [mergeCallsLoop, parse_call]
            _ = ⟨(rest.get ⟨j, hj⟩).to_addr, (rest.get ⟨j, hj⟩).selector,
                 (cur + call.calldata.length) +
                   ((rest.take j).map (fun cl => cl.calldata.length)).sum,
                 (rest.get ⟨j, hj⟩).calldata.length⟩ := hstep
            _ = ⟨((call :: rest).get ⟨j + 1, h⟩).to_addr,
                 ((call :: rest).get ⟨j + 1, h⟩).selector,
                 cur + (((call :: rest).take (j + 1)).map
                   (fun cl => cl.calldata.length)).sum,
                 ((call :: rest).get ⟨j + 1, h⟩).calldata.length⟩ := by
                rw [harith]
                simp

/-- C8: `merge_calls` returns the per-call descriptor list and the
in-order concatenation of all calls' calldata; descriptor `i` carries
`data_len` equal to call `i`'s calldata length and `data_offset` equal to
the sum of the calldata lengths of calls `0..i-1`; consequently the last
descriptor's `data_offset + data_len` equals the length of the entire
calldata. -/
theorem claim_C8 (calls : List Call) :
    (merge_calls calls).1.length = calls.length ∧
    (merge_calls calls).2 = (calls.map Call.calldata).flatten ∧
    (∀ i (h : i < calls.length),
       (merge_calls calls).1.get
           ⟨i, by rw [merge_calls, mergeCallsLoop_fst_length]; exact h⟩ =
         ⟨(calls.get ⟨i, h⟩).to_addr, (calls.get ⟨i, h⟩).selector,
          ((calls.take i).map (fun cl => cl.calldata.length)).sum,
          (calls.get ⟨i, h⟩).calldata.length⟩) ∧
    (∀ hne : 0 < calls.length,
       ((merge_calls calls).1.get
           ⟨calls.length - 1,
            by rw [merge_calls, mergeCallsLoop_fst_length]; omega⟩).data_offset +
         ((merge_calls calls).1.get
           ⟨calls.length - 1,
            by rw [merge_calls, mergeCallsLoop_fst_length]; omega⟩).data_len =
       (merge_calls calls).2.length) := by
  have hget : ∀ i (h : i < calls.length),
      (merge_calls calls).1.get
          ⟨i, by rw [merge_calls, mergeCallsLoop_fst_length]; exact h⟩ =
        ⟨(calls.get ⟨i, h⟩).to_addr, (calls.get ⟨i, h⟩).selector,
         ((calls.take i).map (fun cl => cl.calldata.length)).sum,
         (calls.get ⟨i, h⟩).calldata.length⟩ := by
    intro i h
    simpa using mergeCallsLoop_get calls 0 [] i h
  refine ⟨mergeCallsLoop_fst_length calls 0 [],
          by simpa using mergeCallsLoop_snd calls 0 [], hget, ?_⟩
  intro hne
  have hlt : calls.length - 1 < calls.length := by omega
  rw [hget (calls.length - 1) hlt]
  have hlen2 : (merge_calls calls).2.length =
      (calls.map (fun cl => cl.calldata.length)).sum := by
    have := mergeCallsLoop_snd calls 0 []
    rw [merge_calls, this]
    simp only [List.nil_append, List.length_flatten, List.map_map]
    rfl
  rw [hlen2]
  have hmap : (calls.take (calls.length - 1)).map (fun cl => cl.calldata.length) =
      ((calls.map (fun cl => cl.calldata.length)).take (calls.length - 1)) := by
    rw [List.map_take]
  rw [hmap]
  have hL : calls.length - 1 < (calls.map (fun cl => cl.calldata.length)).length := by
    simpa using hlt
  have hsum := List.sum_take_succ (calls.map (fun cl => cl.calldata.length))
    (calls.length - 1) hL
  have hn1 : calls.length - 1 + 1 = calls.length := by omega
  rw [hn1] at hsum
  have htake : ((calls.map (fun cl => cl.calldata.length)).take calls.length) =
      calls.map (fun cl => cl.calldata.length) := by
    apply List.take_of_length_le
    simp
  rw [htake] at hsum
  have hgetmap : (calls.map (fun cl => cl.calldata.length))[calls.length - 1] =
      (calls.get ⟨calls.length - 1, hlt⟩).calldata.length := by
    simp [List.getElem_map]
  rw [hgetmap] at hsum
  dsimp only
  omega

/-- Witness for C8 on a concrete three-call list. -/
theorem claim_C8_witness :
    (merge_calls [⟨1, 2, [10, 11]⟩, ⟨3, 4, [12]⟩, ⟨5, 6, []⟩]).1.length = 3 ∧
    (merge_calls [⟨1, 2, [10, 11]⟩, ⟨3, 4, [12]⟩, ⟨5, 6, []⟩]).2 =
      [10, 11, 12] ∧
    (merge_calls [⟨1, 2, [10, 11]⟩, ⟨3, 4, [12]⟩, ⟨5, 6, []⟩]).1.get ⟨1, by decide⟩ =
      ⟨3, 4, 2, 1⟩ ∧
    ((merge_calls [⟨1, 2, [10, 11]⟩, ⟨3, 4, [12]⟩, ⟨5, 6, []⟩]).1.get
        ⟨2, by decide⟩).data_offset +
      ((merge_calls [⟨1, 2, [10, 11]⟩, ⟨3, 4, [12]⟩, ⟨5, 6, []⟩]).1.get
        ⟨2, by decide⟩).data_len =
      (merge_calls [⟨1, 2, [10, 11]⟩, ⟨3, 4, [12]⟩, ⟨5, 6, []⟩]).2.length := by
  have hmain := claim_C8 [⟨1, 2, [10, 11]⟩, ⟨3, 4, [12]⟩, ⟨5, 6, []⟩]
  refine ⟨hmain.1, by rw [hmain.2.1]; rfl, ?_, ?_⟩
  · have := hmain.2.2.1 1 (by decide)
    simpa using this
  · have := hmain.2.2.2 (by decide)
    simpa using this

/-! ## The `NonPrefixedHex` schema field -/

theorem hexDigit_roundtrip : ∀ d, d < 16 →
    isHexDigitChar (hexDigitChar d) = true ∧ hexCharVal (hexDigitChar d) = d := by
  decide

theorem hexDigitChar_ne_strip : ∀ d, d < 16 → d ≠ 0 →
    hexDigitChar d ≠ '0' ∧ hexDigitChar d ≠ 'x' ∧
      (['0', 'x'].contains (hexDigitChar d)) = false := by
  decide

theorem foldl_hex_reverse (L : List Nat) (a : Nat) :
    L.reverse.foldl (fun acc d => acc * 16 + d) a =
      a * 16 ^ L.length + Nat.ofDigits 16 L := by
  induction L generalizing a with
  | nil => simp
  | cons d t ih =>
      rw [List.reverse_cons, List.foldl_append]
      simp only [List.foldl_cons, List.foldl_nil]
      rw [ih, Nat.ofDigits_cons, List.length_cons, pow_succ]
      ring

theorem pyHexDigits_decomp (v : Nat) (h : v ≠ 0) :
    ∃ (d : Nat) (t : List Char),
      d < 16 ∧ d ≠ 0 ∧ pyHexDigits v = hexDigitChar d :: t := by
  have hne : Nat.digits 16 v ≠ [] := Nat.digits_ne_nil_iff_ne_zero.mpr h
  have hrevne : (Nat.digits 16 v).reverse ≠ [] := by simp [hne]
  obtain ⟨d, t, hdt⟩ := List.exists_cons_of_ne_nil hrevne
  refine ⟨d, t.map hexDigitChar, ?_, ?_, ?_⟩
  · apply Nat.digits_lt_base (by norm_num)
    apply List.mem_reverse.mp
    rw [hdt]
    exact List.mem_cons_self d t
  · have hhead : (Nat.digits 16 v).reverse.head hrevne = d := by simp [hdt]
    have hgl := Nat.getLast_digit_ne_zero 16 h
    rw [List.head_reverse] at hhead
    rw [← hhead]
    exact hgl
  · unfold pyHexDigits
    rw [if_neg h, hdt]
    rfl

theorem nonPrefixedHexSerialize_pos (v : Nat) (h : v ≠ 0) :
    nonPrefixedHexSerialize v = pyHexDigits v := by
  obtain ⟨d, t, hd16, hd0, hdt⟩ := pyHexDigits_decomp v h
  have hne0 := (hexDigitChar_ne_strip d hd16 hd0).1
  have hnex := (hexDigitChar_ne_strip d hd16 hd0).2.1
  unfold nonPrefixedHexSerialize pyHex pyLstrip
  rw [hdt]
  simp [List.dropWhile_cons, hne0, hnex]

theorem parseHexDigits_pyHexDigits (v : Nat) (h : v ≠ 0) :
    parseHexDigits (pyHexDigits v) = some v := by
  have hne : Nat.digits 16 v ≠ [] := Nat.digits_ne_nil_iff_ne_zero.mpr h
  have hdig : ∀ d ∈ Nat.digits 16 v, d < 16 := fun d hd =>
    Nat.digits_lt_base (by norm_num) hd
  have hall : ((Nat.digits 16 v).reverse.map hexDigitChar).all isHexDigitChar = true := by
    rw [List.all_eq_true]
    intro c hc
    rw [List.mem_map] at hc
    obtain ⟨d, hd, rfl⟩ := hc
    exact (hexDigit_roundtrip d (hdig d (List.mem_reverse.mp hd))).1
  have hnenil : (Nat.digits 16 v).reverse.map hexDigitChar ≠ [] := by simp [hne]
  have hpy : pyHexDigits v = (Nat.digits 16 v).reverse.map hexDigitChar := by
    unfold pyHexDigits
    rw [if_neg h]
  rw [hpy]
  unfold parseHexDigits
  rw [if_pos ⟨hnenil, hall⟩]
  congr 1
  rw [List.foldl_map]
  have hcong : (Nat.digits 16 v).reverse.foldl
      (fun a d => a * 16 + hexCharVal (hexDigitChar d)) 0 =
      (Nat.digits 16 v).reverse.foldl (fun a d => a * 16 + d) 0 := by
    apply List.foldl_ext
    intro a d hd
    rw [(hexDigit_roundtrip d (hdig d (List.mem_reverse.mp hd))).2]
  rw [hcong, foldl_hex_reverse]
  simp [Nat.ofDigits_digits]

/-- C10 (counterexample to the claim as stated): at `v = 0`,
`NonPrefixedHex._serialize` returns the empty string — `lstrip("0x")`
strips the character set `{'0','x'}`, and `hex(0) = "0x0"` consists only
of such characters — and deserializing the empty string raises
`ValueError` instead of returning `0`. -/
theorem claim_C10_counterexample :
    nonPrefixedHexSerialize 0 = [] ∧
    nonPrefixedHexDeserialize (nonPrefixedHexSerialize 0) =
      .error .valueError := by
  constructor <;> rfl

/-- C10 (amended): for every `v >= 1`, `NonPrefixedHex._serialize(v)`
returns the hexadecimal digits of `v` with the leading `0x` removed, and
the round-trip `_deserialize(_serialize(v))` returns `v`; at `v = 0` the
serialization collapses to the empty string, which fails to
deserialize. -/
theorem claim_C10_amended (v : Nat) (h : 1 ≤ v) :
    nonPrefixedHexSerialize v = pyHexDigits v ∧
    nonPrefixedHexDeserialize (nonPrefixedHexSerialize v) = .ok v := by
  have h0 : v ≠ 0 := by omega
  have hser := nonPrefixedHexSerialize_pos v h0
  refine ⟨hser, ?_⟩
  rw [hser]
  obtain ⟨d, t, hd16, hd0, hdt⟩ := pyHexDigits_decomp v h0
  have hne0 := (hexDigitChar_ne_strip d hd16 hd0).1
  have hpre : (pyHexDigits v).take 2 ≠ ['0', 'x'] := by
    rw [hdt]
    cases t with
    | nil => simp
    | cons c2 r =>
        intro heq
        simp [List.take] at heq
        exact hne0 heq.1
  unfold nonPrefixedHexDeserialize pyIntBase16
  rw [if_neg hpre, parseHexDigits_pyHexDigits v h0]

/-- Witness for the amended C10 at `v = 255`. -/
theorem claim_C10_witness :
    nonPrefixedHexSerialize 255 = pyHexDigits 255 ∧
    nonPrefixedHexDeserialize (nonPrefixedHexSerialize 255) = .ok 255 :=
  claim_C10_amended 255 (by decide)

end StarknetPy
